import Mathlib

/-!
# Verification of the mlspp wire codec and crypto layer

Shallow embedding of the source files `src/tls_syntax.cpp`, `src/crypto.cpp`,
`src/include/crypto.h` and `src/include/messages.h` of the mlspp repository,
together with proofs settling the frozen claims about the natural-language
specification.

Machine bytes are modelled as `Nat` (a well-formed byte is `< 256`); byte
strings are `List Nat`, read head-first.  The C++ `tls::istream` pops bytes
off the back of an internal buffer that holds the input reversed, so its
observable behaviour is exactly head-first consumption of the input; the
model consumes the input list from the head directly.
-/

namespace mls

/-- Byte strings (`std::vector<uint8_t>` / `mls::bytes` in the source). -/
abbrev Bytes := List Nat

/-! ## `tls::ostream` primitives (src/tls_syntax.cpp)

`ostream::write_uint(value, length)` pushes, for `i = length-1` down to `0`,
the byte `value >> (8*i)` (truncated to 8 bits).  The resulting byte string
is big-endian. -/
/-- `tls::ostream::write_uint(value, length)`: big-endian fixed-width
integer encoding; byte `i` (from the most significant end) is
`(value >> (8*(length-1-i))) & 0xff`. -/
def writeUint (value : Nat) : Nat → Bytes
  | 0 => []
  | n + 1 => (value / 256 ^ n) % 256 :: writeUint value n

/-! ## `tls::istream` primitives (src/tls_syntax.cpp)

`istream::next()` throws `ReadError("Attempt to read from empty buffer")`
when the buffer is exhausted; `read_uint(data, length)` folds `length`
bytes big-endian, via `value = (value << 8) + next()`. -/
/-- The error carried by a failed `tls::istream` read.  In the source this is
the exception class `ReadError`, which carries only a message string. -/
structure ReadError where
  msg : String
deriving DecidableEq, Repr

/-- The message of the only read failure in src/tls_syntax.cpp. -/
def emptyBufferMsg : String := "Attempt to read from empty buffer"

/-- A reader: consumes a prefix of the byte string, returning the parsed
value and the unconsumed tail, or the `ReadError` thrown by the source. -/
abbrev Rd (α : Type) := Bytes → Except ReadError (α × Bytes)

/-- The loop of `istream::read_uint`: `length` iterations of
`value = (value << 8) + next()`, starting from accumulator `acc`. -/
def readUintGo : Nat → Nat → Bytes → Except ReadError (Nat × Bytes)
  | 0, acc, buf => .ok (acc, buf)
  | _ + 1, _, [] => .error ⟨emptyBufferMsg⟩
  | n + 1, acc, b :: rest => readUintGo n (acc * 256 + b) rest

/-- `tls::istream::read_uint(data, length)` (src/tls_syntax.cpp): reads
`length` bytes big-endian.  The `uint8_t/uint16_t/uint32_t/uint64_t`
`operator>>` instances call this with length 1, 2, 4, 8. -/
def readUintE (len : Nat) : Rd Nat := fun buf => readUintGo len 0 buf

/-! ## Opaque values, vectors and optionals

Modelled from the spec (§4.B): the template definitions of `tls::opaque<L>`,
`tls::vector<T, L>` and `tls::optional<T>` live in `tls_syntax.h`, which is
not under src/.  Per the spec: an `opaque<L>` is a byte string prefixed by
its length in `L` bytes; a `vector<T, L>` is prefixed by the total encoded
byte length (not element count) of the concatenated element encodings;
unmarshalling is strict — a length prefix must consume to exactly its
declared byte count; an `optional<T>` is a one-byte present/absent flag
followed by `T` when present. -/
/-- Encode an `opaque<L>`: length prefix in `L` bytes, then the raw bytes. -/
def encOpaque (L : Nat) (bs : Bytes) : Bytes := writeUint bs.length L ++ bs

/-- Decode an `opaque<L>`: read the `L`-byte length, then that many bytes. -/
def readOpaque (L : Nat) : Rd Bytes := fun buf => do
  let (n, b1) ← readUintE L buf
  if n ≤ b1.length then .ok (b1.take n, b1.drop n) else .error ⟨emptyBufferMsg⟩

/-- Concatenate the encodings of the elements of a vector. -/
def encList {α : Type} (enc : α → Bytes) : List α → Bytes
  | [] => []
  | x :: xs => enc x ++ encList enc xs

/-- Encode a `vector<T, L>`: total payload byte length in `L` bytes, then the
concatenated element encodings. -/
def encVec {α : Type} (L : Nat) (enc : α → Bytes) (xs : List α) : Bytes :=
  encOpaque L (encList enc xs)

/-- Parse elements back-to-back until the buffer is exhausted.  The fuel
bounds the number of iterations; `readVec` passes the byte count of the
payload, which suffices because every element encoding is nonempty. -/
def readElems {α : Type} (rd : Rd α) : Nat → Bytes → Except ReadError (List α)
  | _, [] => .ok []
  | 0, _ :: _ => .error ⟨emptyBufferMsg⟩
  | fuel + 1, b :: rest => do
    let (x, r1) ← rd (b :: rest)
    let xs ← readElems rd fuel r1
    .ok (x :: xs)

/-- Decode a `vector<T, L>`: read the payload length, split off that many
bytes, and parse elements from them until they are exactly consumed. -/
def readVec {α : Type} (L : Nat) (rd : Rd α) : Rd (List α) := fun buf => do
  let (n, b1) ← readUintE L buf
  if n ≤ b1.length then do
    let xs ← readElems rd n (b1.take n)
    .ok (xs, b1.drop n)
  else .error ⟨emptyBufferMsg⟩

/-- Encode an `optional<T>`: presence flag byte, then the value if present. -/
def encOpt {α : Type} (enc : α → Bytes) : Option α → Bytes
  | none => [0]
  | some v => 1 :: enc v

/-- Decode an `optional<T>`: flag byte `0` means absent, `1` means present;
any other flag byte is a decode error. -/
def readOpt {α : Type} (rd : Rd α) : Rd (Option α) := fun buf => do
  let (flag, b1) ← readUintE 1 buf
  match flag with
  | 0 => .ok (none, b1)
  | 1 => do
    let (v, b2) ← rd b1
    .ok (some v, b2)
  | _ => .error ⟨"Invalid optional flag"⟩

end mls

namespace mls.wire

/-!
## Message types and their wire format

Data model from `src/include/messages.h` (struct declarations and the TLS
presentation comments above each struct) and spec §6 "Canonical encodings".
The serializer bodies (`operator<<`/`operator>>` in `messages.cpp`) are not
under src/, so the encodings here are modelled from the spec's canonical
encoding list; the struct layouts are from `messages.h`.

A `DHPublicKey`/`SignaturePublicKey` travels as `opaque<2>` wrapping its raw
marshalled form (spec §6); `parse_public` is the inverse of `marshal_public`
on valid keys (spec §4.C), so the wire model of a key is its raw bytes. -/
/-- Well-formed byte string: every entry is one byte. -/
def validBytes (bs : Bytes) : Bool := bs.all (fun b => b < 256)

/-- `CipherSuite` (src/include/messages.h via common.h; tags from spec §6):
`0x0000` P256_SHA256_AES128GCM, `0x0001` X25519_SHA256_AES128GCM. -/
inductive CipherSuite
  | P256_SHA256_AES128GCM
  | X25519_SHA256_AES128GCM
deriving DecidableEq, Repr

/-- The `uint16` wire tag of a ciphersuite (spec §6). -/
def CipherSuite.toTag : CipherSuite → Nat
  | .P256_SHA256_AES128GCM => 0
  | .X25519_SHA256_AES128GCM => 1

/-- `DHPublicKey` on the wire: its raw marshalled key bytes. -/
structure DHPublicKey where
  raw : Bytes
deriving DecidableEq, Repr

/-- `SignaturePublicKey` on the wire: its raw marshalled key bytes. -/
structure SignaturePublicKey where
  raw : Bytes
deriving DecidableEq, Repr

/-- Modelled from the spec: `Credential` (§3) — the credential type and its
codec are not under src/.  A single *Basic* variant: (user_id bytes,
SignaturePublicKey), encoded as a one-byte variant tag (0 = basic) followed
by an `opaque<2>` user_id and the signature public key. -/
structure Credential where
  user_id : Bytes
  public_key : SignaturePublicKey
deriving DecidableEq, Repr

/-- `HPKECiphertext` (src/include/messages.h / spec §6): ephemeral
`DHPublicKey`, then `opaque<3>` content. -/
structure HPKECiphertext where
  ephemeral : DHPublicKey
  content : Bytes
deriving DecidableEq, Repr

/-- `RatchetNode` (src/include/messages.h): public key and
`vector<HPKECiphertext, 2>` node_secrets. -/
structure RatchetNode where
  public_key : DHPublicKey
  node_secrets : List HPKECiphertext
deriving DecidableEq, Repr

/-- `DirectPath` (src/include/messages.h): `vector<RatchetNode, 2>`. -/
structure DirectPath where
  nodes : List RatchetNode
deriving DecidableEq, Repr

/-- `UserInitKey` (src/include/messages.h): id, supported versions,
ciphersuites, one `opaque<2>` init key per suite, credential, signature. -/
structure UserInitKey where
  user_init_key_id : Bytes
  supported_versions : List Nat
  cipher_suites : List CipherSuite
  init_keys : List Bytes
  credential : Credential
  signature : Bytes
deriving DecidableEq, Repr

/-- `Roster` (spec §4.G): ordered `optional<Credential>` aligned with
leaves, serialized with a 4-byte length prefix. -/
structure Roster where
  credentials : List (Option Credential)
deriving DecidableEq, Repr

/-- The wire form of a `RatchetTree` (messages.h comment:
`optional<HPKEPublicKey> tree<1..2^32-1>`). -/
structure RatchetTree where
  nodes : List (Option DHPublicKey)
deriving DecidableEq, Repr

/-- `WelcomeInfo` (src/include/messages.h). -/
structure WelcomeInfo where
  version : Nat
  group_id : Bytes
  epoch : Nat
  roster : Roster
  tree : RatchetTree
  transcript_hash : Bytes
  init_secret : Bytes
deriving DecidableEq, Repr

/-- `Welcome` (src/include/messages.h). -/
structure Welcome where
  user_init_key_id : Bytes
  cipher_suite : CipherSuite
  encrypted_welcome_info : HPKECiphertext
deriving DecidableEq, Repr

/-- `Add` (src/include/messages.h): uint32 leaf index, the joiner's
UserInitKey, and the welcome-info hash. -/
structure Add where
  index : Nat
  init_key : UserInitKey
  welcome_info_hash : Bytes
deriving DecidableEq, Repr

/-- `Update` (src/include/messages.h). -/
structure Update where
  path : DirectPath
deriving DecidableEq, Repr

/-- `Remove` (src/include/messages.h): uint32 removed leaf, direct path. -/
structure Remove where
  removed : Nat
  path : DirectPath
deriving DecidableEq, Repr

/-- `GroupOperation` (src/include/messages.h): a tagged union on
`GroupOperationType` (uint8 tags: add = 1, update = 2, remove = 3).  The
source stores all three arms and a tag ("pseudo-union"); only the arm
selected by the tag is ever populated or serialized, so the faithful
functional model is a sum type. -/
inductive GroupOperation
  | add (a : Add)
  | update (u : Update)
  | remove (r : Remove)
deriving DecidableEq, Repr

/-- `Handshake` (src/include/messages.h). -/
structure Handshake where
  prior_epoch : Nat
  operation : GroupOperation
  signer_index : Nat
  signature : Bytes
  confirmation : Bytes
deriving DecidableEq, Repr

/-- `Handshake::epoch()` (src/include/messages.h line 367):
`prior_epoch + 1` in `epoch_t` (uint32) arithmetic. -/
def Handshake.epoch (h : Handshake) : Nat := (h.prior_epoch + 1) % 2 ^ 32

/-! ### Encoders (marshal) -/
def encDHPublicKey (k : DHPublicKey) : Bytes := encOpaque 2 k.raw

def encSignaturePublicKey (k : SignaturePublicKey) : Bytes := encOpaque 2 k.raw

def encCredential (c : Credential) : Bytes :=
  writeUint 0 1 ++ encOpaque 2 c.user_id ++ encSignaturePublicKey c.public_key

def encHPKECiphertext (c : HPKECiphertext) : Bytes :=
  encDHPublicKey c.ephemeral ++ encOpaque 3 c.content

def encRatchetNode (n : RatchetNode) : Bytes :=
  encDHPublicKey n.public_key ++ encVec 2 encHPKECiphertext n.node_secrets

def encDirectPath (p : DirectPath) : Bytes :=
  encVec 2 encRatchetNode p.nodes

def encSuite (s : CipherSuite) : Bytes := writeUint s.toTag 2

def encU8 (b : Nat) : Bytes := writeUint b 1

def encUserInitKey (u : UserInitKey) : Bytes :=
  encOpaque 1 u.user_init_key_id ++ encVec 1 encU8 u.supported_versions ++
    encVec 1 encSuite u.cipher_suites ++ encVec 2 (encOpaque 2) u.init_keys ++
    encCredential u.credential ++ encOpaque 2 u.signature

def encRoster (r : Roster) : Bytes :=
  encVec 4 (encOpt encCredential) r.credentials

def encRatchetTree (t : RatchetTree) : Bytes :=
  encVec 4 (encOpt encDHPublicKey) t.nodes

def encWelcomeInfo (w : WelcomeInfo) : Bytes :=
  writeUint w.version 1 ++ encOpaque 1 w.group_id ++ writeUint w.epoch 4 ++
    encRoster w.roster ++ encRatchetTree w.tree ++
    encOpaque 1 w.transcript_hash ++ encOpaque 1 w.init_secret

def encWelcome (w : Welcome) : Bytes :=
  encOpaque 1 w.user_init_key_id ++ encSuite w.cipher_suite ++
    encHPKECiphertext w.encrypted_welcome_info

def encAdd (a : Add) : Bytes :=
  writeUint a.index 4 ++ encUserInitKey a.init_key ++ encOpaque 1 a.welcome_info_hash

def encUpdate (u : Update) : Bytes := encDirectPath u.path

def encRemove (r : Remove) : Bytes := writeUint r.removed 4 ++ encDirectPath r.path

def encGroupOperation : GroupOperation → Bytes
  | .add a => writeUint 1 1 ++ encAdd a
  | .update u => writeUint 2 1 ++ encUpdate u
  | .remove r => writeUint 3 1 ++ encRemove r

def encHandshake (h : Handshake) : Bytes :=
  writeUint h.prior_epoch 4 ++ encGroupOperation h.operation ++
    writeUint h.signer_index 4 ++ encOpaque 2 h.signature ++ encOpaque 1 h.confirmation

/-! ### Readers (unmarshal) -/
def readDHPublicKey : Rd DHPublicKey := fun buf => do
  let (raw, b1) ← readOpaque 2 buf
  .ok (⟨raw⟩, b1)

def readSignaturePublicKey : Rd SignaturePublicKey := fun buf => do
  let (raw, b1) ← readOpaque 2 buf
  .ok (⟨raw⟩, b1)

def readCredential : Rd Credential := fun buf => do
  let (tag, b1) ← readUintE 1 buf
  match tag with
  | 0 => do
    let (uid, b2) ← readOpaque 2 b1
    let (pk, b3) ← readSignaturePublicKey b2
    .ok (⟨uid, pk⟩, b3)
  | _ => .error ⟨"Unknown credential type"⟩

def readHPKECiphertext : Rd HPKECiphertext := fun buf => do
  let (eph, b1) ← readDHPublicKey buf
  let (content, b2) ← readOpaque 3 b1
  .ok (⟨eph, content⟩, b2)

def readRatchetNode : Rd RatchetNode := fun buf => do
  let (pk, b1) ← readDHPublicKey buf
  let (ns, b2) ← readVec 2 readHPKECiphertext b1
  .ok (⟨pk, ns⟩, b2)

def readDirectPath : Rd DirectPath := fun buf => do
  let (ns, b1) ← readVec 2 readRatchetNode buf
  .ok (⟨ns⟩, b1)

def readSuite : Rd CipherSuite := fun buf => do
  let (tag, b1) ← readUintE 2 buf
  match tag with
  | 0 => .ok (.P256_SHA256_AES128GCM, b1)
  | 1 => .ok (.X25519_SHA256_AES128GCM, b1)
  | _ => .error ⟨"Unknown ciphersuite"⟩

def readU8 : Rd Nat := readUintE 1

def readUserInitKey : Rd UserInitKey := fun buf => do
  let (uikId, b1) ← readOpaque 1 buf
  let (vers, b2) ← readVec 1 readU8 b1
  let (suites, b3) ← readVec 1 readSuite b2
  let (inits, b4) ← readVec 2 (readOpaque 2) b3
  let (cred, b5) ← readCredential b4
  let (sig, b6) ← readOpaque 2 b5
  .ok (⟨uikId, vers, suites, inits, cred, sig⟩, b6)

def readRoster : Rd Roster := fun buf => do
  let (cs, b1) ← readVec 4 (readOpt readCredential) buf
  .ok (⟨cs⟩, b1)

def readRatchetTree : Rd RatchetTree := fun buf => do
  let (ns, b1) ← readVec 4 (readOpt readDHPublicKey) buf
  .ok (⟨ns⟩, b1)

def readWelcomeInfo : Rd WelcomeInfo := fun buf => do
  let (version, b1) ← readUintE 1 buf
  let (gid, b2) ← readOpaque 1 b1
  let (epoch, b3) ← readUintE 4 b2
  let (roster, b4) ← readRoster b3
  let (tree, b5) ← readRatchetTree b4
  let (th, b6) ← readOpaque 1 b5
  let (isec, b7) ← readOpaque 1 b6
  .ok (⟨version, gid, epoch, roster, tree, th, isec⟩, b7)

def readWelcome : Rd Welcome := fun buf => do
  let (uikId, b1) ← readOpaque 1 buf
  let (suite, b2) ← readSuite b1
  let (ewi, b3) ← readHPKECiphertext b2
  .ok (⟨uikId, suite, ewi⟩, b3)

def readAdd : Rd Add := fun buf => do
  let (index, b1) ← readUintE 4 buf
  let (uik, b2) ← readUserInitKey b1
  let (wih, b3) ← readOpaque 1 b2
  .ok (⟨index, uik, wih⟩, b3)

def readUpdate : Rd Update := fun buf => do
  let (p, b1) ← readDirectPath buf
  .ok (⟨p⟩, b1)

def readRemove : Rd Remove := fun buf => do
  let (removed, b1) ← readUintE 4 buf
  let (p, b2) ← readDirectPath b1
  .ok (⟨removed, p⟩, b2)

def readGroupOperation : Rd GroupOperation := fun buf => do
  let (tag, b1) ← readUintE 1 buf
  match tag with
  | 1 => do
    let (a, b2) ← readAdd b1
    .ok (.add a, b2)
  | 2 => do
    let (u, b2) ← readUpdate b1
    .ok (.update u, b2)
  | 3 => do
    let (r, b2) ← readRemove b1
    .ok (.remove r, b2)
  | _ => .error ⟨"Unknown group operation type"⟩

def readHandshake : Rd Handshake := fun buf => do
  let (pe, b1) ← readUintE 4 buf
  let (op, b2) ← readGroupOperation b1
  let (si, b3) ← readUintE 4 b2
  let (sig, b4) ← readOpaque 2 b3
  let (conf, b5) ← readOpaque 1 b4
  .ok (⟨pe, op, si, sig, conf⟩, b5)

/-! ### Validity

A *valid* value is one whose fields fit their wire length prefixes and whose
byte strings are well-formed bytes (spec: "every valid value v"). -/
def DHPublicKey.valid (k : DHPublicKey) : Bool :=
  validBytes k.raw && k.raw.length < 2 ^ 16

def SignaturePublicKey.valid (k : SignaturePublicKey) : Bool :=
  validBytes k.raw && k.raw.length < 2 ^ 16

def Credential.valid (c : Credential) : Bool :=
  validBytes c.user_id && c.user_id.length < 2 ^ 16 && c.public_key.valid

def HPKECiphertext.valid (c : HPKECiphertext) : Bool :=
  c.ephemeral.valid && validBytes c.content && c.content.length < 2 ^ 24

def RatchetNode.valid (n : RatchetNode) : Bool :=
  n.public_key.valid && n.node_secrets.all HPKECiphertext.valid &&
    (encList encHPKECiphertext n.node_secrets).length < 2 ^ 16

def DirectPath.valid (p : DirectPath) : Bool :=
  p.nodes.all RatchetNode.valid && (encList encRatchetNode p.nodes).length < 2 ^ 16

def UserInitKey.valid (u : UserInitKey) : Bool :=
  validBytes u.user_init_key_id && u.user_init_key_id.length < 2 ^ 8 &&
    u.supported_versions.all (fun v => v < 256) &&
    (encList encU8 u.supported_versions).length < 2 ^ 8 &&
    (encList encSuite u.cipher_suites).length < 2 ^ 8 &&
    u.init_keys.all (fun k => validBytes k && k.length < 2 ^ 16) &&
    (encList (encOpaque 2) u.init_keys).length < 2 ^ 16 &&
    u.credential.valid && validBytes u.signature && u.signature.length < 2 ^ 16

def Roster.valid (r : Roster) : Bool :=
  r.credentials.all (fun c => c.all Credential.valid) &&
    (encList (encOpt encCredential) r.credentials).length < 2 ^ 32

def RatchetTree.valid (t : RatchetTree) : Bool :=
  t.nodes.all (fun n => n.all DHPublicKey.valid) &&
    (encList (encOpt encDHPublicKey) t.nodes).length < 2 ^ 32

def WelcomeInfo.valid (w : WelcomeInfo) : Bool :=
  w.version < 2 ^ 8 && validBytes w.group_id && w.group_id.length < 2 ^ 8 &&
    w.epoch < 2 ^ 32 && w.roster.valid && w.tree.valid &&
    validBytes w.transcript_hash && w.transcript_hash.length < 2 ^ 8 &&
    validBytes w.init_secret && w.init_secret.length < 2 ^ 8

def Welcome.valid (w : Welcome) : Bool :=
  validBytes w.user_init_key_id && w.user_init_key_id.length < 2 ^ 8 &&
    w.encrypted_welcome_info.valid

def Add.valid (a : Add) : Bool :=
  a.index < 2 ^ 32 && a.init_key.valid && validBytes a.welcome_info_hash &&
    a.welcome_info_hash.length < 2 ^ 8

def Update.valid (u : Update) : Bool := u.path.valid

def Remove.valid (r : Remove) : Bool := r.removed < 2 ^ 32 && r.path.valid

def GroupOperation.valid : GroupOperation → Bool
  | .add a => a.valid
  | .update u => u.valid
  | .remove r => r.valid

def Handshake.valid (h : Handshake) : Bool :=
  h.prior_epoch < 2 ^ 32 && h.operation.valid && h.signer_index < 2 ^ 32 &&
    validBytes h.signature && h.signature.length < 2 ^ 16 &&
    validBytes h.confirmation && h.confirmation.length < 2 ^ 8

/-- The wire round-trip contract for one message type: unmarshalling the
marshalled bytes of a valid value consumes them exactly and returns the
value itself, and re-marshalling reproduces the same bytes. -/
def RoundTrips {α : Type} (enc : α → Bytes) (rd : Rd α) (valid : α → Bool) : Prop :=
  ∀ v : α, valid v = true → ∃ w, rd (enc v) = .ok (w, []) ∧ w = v ∧ enc w = enc v

/-! Sample values, used to witness the round-trip theorem on concrete inputs. -/
def uik0 : UserInitKey :=
  ⟨[1], [0], [.P256_SHA256_AES128GCM, .X25519_SHA256_AES128GCM], [[5, 6], [7]],
    ⟨[2], ⟨[3, 4]⟩⟩, [9]⟩

def hpke0 : HPKECiphertext := ⟨⟨[2]⟩, [3, 4]⟩

def rnode0 : RatchetNode := ⟨⟨[1]⟩, [hpke0]⟩

def dpath0 : DirectPath := ⟨[rnode0]⟩

def winfo0 : WelcomeInfo :=
  ⟨0, [1], 5, ⟨[some ⟨[2], ⟨[3, 4]⟩⟩, none]⟩, ⟨[none, some ⟨[9]⟩]⟩, [8], [7]⟩

def welcome0 : Welcome := ⟨[1], .X25519_SHA256_AES128GCM, hpke0⟩

def add0 : Add := ⟨3, uik0, [1]⟩

def update0 : Update := ⟨dpath0⟩

def remove0 : Remove := ⟨2, dpath0⟩

def handshake0 : Handshake := ⟨1, .update update0, 0, [1], [2]⟩

def handshakeMax : Handshake := ⟨2 ^ 32 - 1, .update update0, 0, [1], [2]⟩

end mls.wire

namespace mls

/-!
## Crypto layer (src/crypto.cpp, src/include/crypto.h)

The OpenSSL primitives (SHA-256, HMAC, AES-GCM, EC/X25519 arithmetic) are
external collaborators: the spec treats them as named operations with stated
contracts (§1 "Out of scope").  They are modelled here by concrete
executable stand-ins with the contracted shape (output lengths, determinism,
DH commutativity), while everything the repository itself implements —
key-schedule structure, label construction, tag/length handling, error
paths, key-wrapper logic — is translated from the source. -/
/-- Modelled from the spec: SHA-256 ("raw crypto primitives ... assumed
available from a vetted library").  An arbitrary deterministic digest
function with the contracted 32-byte output. -/
def sha256M (data : Bytes) : Bytes :=
  (List.range 32).map
    (fun i => (data.foldl (fun a b => (a * 131 + b + 17 * i) % 256) (i + data.length)) % 256)

/-- Modelled from the spec: HMAC-SHA256 (external primitive, called directly
via OpenSSL `HMAC` in `hmac_sha256`, src/crypto.cpp).  An arbitrary
deterministic keyed function with the contracted 32-byte output. -/
def hmac_sha256 (key data : Bytes) : Bytes :=
  sha256M (key ++ 54 :: data)

/-- `hkdf_extract(salt, ikm) = HMAC-SHA256(salt, ikm)` (src/crypto.cpp). -/
def hkdf_extract (salt ikm : Bytes) : Bytes := hmac_sha256 salt ikm

/-- `std::vector<uint8_t>::resize(n)`: truncate to `n` bytes, or extend with
zero bytes up to `n`. -/
def resize (n : Nat) (bs : Bytes) : Bytes :=
  bs.take n ++ List.replicate (n - bs.length) 0

/-- `hkdf_expand(secret, info, size)` (src/crypto.cpp lines 607-616): a
single-block HKDF-Expand, `HMAC(secret, marshal(info) || 0x01)` resized to
`size` bytes.  The C++ template marshals its `info` argument through the
wire codec; this model takes the marshalled bytes.  Note the source's own
comment: "This method requires that size <= Hash.length" — yet the body
performs no check, and `resize` zero-extends past 32 bytes. -/
def hkdf_expand (secret info : Bytes) (size : Nat) : Bytes :=
  resize size (hmac_sha256 secret (info ++ [1]))

/-- Modelled from the spec: the `State` class (group state, src/state.h —
not under src/).  Only its serialized form enters HKDF labels here, so it is
modelled as an opaque byte string; the serialization of a
default-constructed `State` is an unspecified constant. -/
structure State where
  marshalled : Bytes
deriving DecidableEq, Repr

/-- The serialization of a default-constructed `State`. -/
def State.default : State := ⟨[]⟩

/-- `HKDFLabel` (src/crypto.cpp lines 570-575): `uint16 length`,
`opaque<1> label`, `GroupState state`. -/
structure HKDFLabel where
  length : Nat
  label : Bytes
  group_state : State
deriving DecidableEq, Repr

/-- `operator<<(tls::ostream&, const HKDFLabel&)` (src/crypto.cpp):
`out << obj.length << obj.label << obj.group_state`. -/
def marshalHKDFLabel (l : HKDFLabel) : Bytes :=
  writeUint l.length 2 ++ encOpaque 1 l.label ++ l.group_state.marshalled

/-- ASCII bytes of a label string. -/
def strBytes (s : String) : Bytes := s.data.map Char.toNat

/-- AESGCM constants (src/include/crypto.h lines 197-201). -/
def AESGCM.key_size_128 : Nat := 16

def AESGCM.key_size_192 : Nat := 24

def AESGCM.key_size_256 : Nat := 32

def AESGCM.nonce_size : Nat := 12

def AESGCM.tag_size : Nat := 16

/-- `derive_ecies_secrets(shared_secret)` (src/crypto.cpp lines 830-844):
the AEAD key is the 16-byte labelled expansion of the shared secret and the
nonce the 12-byte one.  Note the source constructs `HKDFLabel` values (with
a default-constructed `State` as the third member) even though the adjacent
comment describes a two-field `ECIESLabel`. -/
def derive_ecies_secrets (shared_secret : Bytes) : Bytes × Bytes :=
  let key_label_vec := strBytes "mls10 ecies key"
  let key_label : HKDFLabel := ⟨AESGCM.key_size_128, key_label_vec, State.default⟩
  let key := hkdf_expand shared_secret (marshalHKDFLabel key_label) AESGCM.key_size_128
  let nonce_label_vec := strBytes "mls10 ecies nonce"
  let nonce_label : HKDFLabel := ⟨AESGCM.nonce_size, nonce_label_vec, State.default⟩
  let nonce := hkdf_expand shared_secret (marshalHKDFLabel nonce_label) AESGCM.nonce_size
  (key, nonce)

/-- Error kinds thrown by the crypto layer (src/include/common.h /
crypto.h): caller misuse vs. underlying-library failure. -/
inductive CryptoError
  | invalidParameterError (msg : String)
  | openSSLError (msg : String)
deriving DecidableEq, Repr

/-- `AESGCM` (src/include/crypto.h): key, nonce and optional AAD for a
one-shot AES-GCM operation. -/
structure AESGCM where
  key : Bytes
  nonce : Bytes
  aad : Bytes
deriving DecidableEq, Repr

/-- The `AESGCM(key, nonce)` constructor (src/crypto.cpp lines 635-657):
rejects key sizes other than 16/24/32 and nonce sizes other than 12. -/
def AESGCM.init (key nonce : Bytes) : Except CryptoError AESGCM :=
  if key.length = AESGCM.key_size_128 ∨ key.length = AESGCM.key_size_192 ∨
      key.length = AESGCM.key_size_256 then
    if nonce.length = AESGCM.nonce_size then
      .ok ⟨key, nonce, []⟩
    else .error (.invalidParameterError "Invalid AES-GCM nonce size")
  else .error (.invalidParameterError "Invalid AES key size")

/-- `AESGCM::set_aad` (src/crypto.cpp). -/
def AESGCM.set_aad (gcm : AESGCM) (aad : Bytes) : AESGCM := { gcm with aad := aad }

/-- Modelled from the spec: the AES-CTR keystream byte at position `i`
underlying AES-GCM (external primitive).  An arbitrary deterministic
function of key, nonce and position, with byte-sized output. -/
def keystreamByte (key nonce : Bytes) (i : Nat) : Nat :=
  key.foldl (fun a b => (a * 131 + b) % 256)
    (nonce.foldl (fun a b => (a * 137 + b) % 256) (i % 256))

/-- XOR a byte string against the keystream starting at offset `off`. -/
def ctrStream (key nonce : Bytes) : Nat → Bytes → Bytes
  | _, [] => []
  | off, b :: rest => (b ^^^ keystreamByte key nonce off) :: ctrStream key nonce (off + 1) rest

/-- Modelled from the spec: the 16-byte GCM authentication tag (external
primitive).  An arbitrary deterministic function of key, nonce, AAD and
ciphertext. -/
def gcmTag (key nonce aad ct : Bytes) : Bytes :=
  (List.range AESGCM.tag_size).map (fun i => keystreamByte key (nonce ++ aad ++ ct) i)

/-- `AESGCM::encrypt` (src/crypto.cpp lines 665-701): the ciphertext body
followed by the 16-byte tag. -/
def AESGCM.encrypt (gcm : AESGCM) (pt : Bytes) : Bytes :=
  let body := ctrStream gcm.key gcm.nonce 0 pt
  body ++ gcmTag gcm.key gcm.nonce gcm.aad body

/-- `AESGCM::decrypt` (src/crypto.cpp lines 703-743): rejects ciphertexts
shorter than the tag; otherwise splits off the trailing 16-byte tag,
verifies it (`EVP_DecryptFinal` fails on mismatch), and returns the
decrypted body of `ct.size() - tag_size` bytes. -/
def AESGCM.decrypt (gcm : AESGCM) (ct : Bytes) : Except CryptoError Bytes :=
  if ct.length < AESGCM.tag_size then
    .error (.invalidParameterError "AES-GCM ciphertext smaller than tag size")
  else
    let body := ct.take (ct.length - AESGCM.tag_size)
    let tag := ct.drop (ct.length - AESGCM.tag_size)
    if tag = gcmTag gcm.key gcm.nonce gcm.aad body then
      .ok (ctrStream gcm.key gcm.nonce 0 body)
    else .error (.openSSLError "EVP_DecryptFinal: tag mismatch")

/-! ### Key wrappers

`OpenSSLKey` (src/include/crypto.h, src/crypto.cpp) wraps an `EVP_PKEY` that
may be absent (a default-constructed wrapper holds a null pointer).  The
elliptic-curve arithmetic itself is external; it is modelled as modular
exponentiation in a small concrete commutative group per key type, which has
the one contracted property the repository relies on: `dh(a, pub_b) =
dh(b, pub_a)`.  A private key's raw material is the byte string installed by
`set_secret`/`generate`; its scalar is derived from that material. -/
/-- `OpenSSLKeyType` (src/include/crypto.h lines 19-23). -/
inductive OpenSSLKeyType
  | P256
  | X25519
deriving DecidableEq, Repr

/-- Modelled from the spec: the group modulus of each curve's stand-in. -/
def groupModulus : OpenSSLKeyType → Nat
  | .P256 => 211
  | .X25519 => 251

/-- Modelled from the spec: the base point of each curve's stand-in. -/
def groupGen : OpenSSLKeyType → Nat
  | .P256 => 3
  | .X25519 => 7

/-- Big-endian base-256 value of a byte string (`BN_bin2bn`). -/
def natOfBytes (bs : Bytes) : Nat := bs.foldl (fun a b => a * 256 + b) 0

/-- The scalar a raw private key acts by in the modelled group. -/
def scalarOfRaw (t : OpenSSLKeyType) (raw : Bytes) : Nat :=
  natOfBytes raw % groupModulus t

/-- The public group element determined by raw private key material. -/
def pubElemOf (t : OpenSSLKeyType) (raw : Bytes) : Nat :=
  groupGen t ^ scalarOfRaw t raw % groupModulus t

/-- The key material inside a non-null `EVP_PKEY`: its type, optionally the
raw private key (absent for public-only keys), and the public element. -/
structure KeyMaterial where
  keyType : OpenSSLKeyType
  privRaw : Option Bytes
  pubElem : Nat
deriving DecidableEq, Repr

/-- `OpenSSLKey`: a possibly-null `EVP_PKEY` wrapper. -/
structure OpenSSLKey where
  material : Option KeyMaterial
deriving DecidableEq, Repr

/-- Modelled from the spec: `EVP_PKEY_cmp` (external), which compares the
public key material of two non-null keys; returns 1 on equality. -/
def evpPkeyCmp (a b : KeyMaterial) : Int :=
  if a.keyType = b.keyType ∧ a.pubElem = b.pubElem then 1 else 0

/-- `OpenSSLKey::operator==` (src/crypto.cpp lines 254-270): if exactly one
side is null they differ; if both are null they are equal; otherwise the
result is `EVP_PKEY_cmp(...) == 1`. -/
def OpenSSLKey.eq (x y : OpenSSLKey) : Bool :=
  match x.material, y.material with
  | none, some _ => false
  | some _, none => false
  | none, none => true
  | some a, some b => evpPkeyCmp a b == 1

/-- The domain-separation prefix hashed before a seed in `set_secret`
(`dh_hash_prefix`, declared in src/common.h — not under src/; modelled as an
unspecified constant byte string). -/
def dhHashPfx : Bytes := [245, 7]

/-- `X25519Key::set_secret` / `P256Key::set_secret` (src/crypto.cpp lines
83-94 and 199-214): both digest `SHA256(dh_hash_prefix || data)` and install
the digest as the private key material, with the matching public key. -/
def OpenSSLKey.set_secret (t : OpenSSLKeyType) (data : Bytes) : OpenSSLKey :=
  let digest := sha256M (dhHashPfx ++ data)
  ⟨some ⟨t, some digest, pubElemOf t digest⟩⟩

/-- `X25519Key::generate` / `P256Key::generate` (src/crypto.cpp lines 70 and
176-184).  System randomness is modelled as an explicit entropy argument:
X25519 calls `set_secret(random_bytes(32))` (so the entropy is hashed);
P256 calls `EC_KEY_generate_key`, installing a fresh scalar directly. -/
def OpenSSLKey.generateKey (t : OpenSSLKeyType) (entropy : Bytes) : OpenSSLKey :=
  match t with
  | .X25519 => OpenSSLKey.set_secret .X25519 entropy
  | .P256 => ⟨some ⟨.P256, some entropy, pubElemOf .P256 entropy⟩⟩

/-- `dup_public` (src/crypto.cpp): a copy holding only the public half. -/
def OpenSSLKey.dupPublic (k : OpenSSLKey) : OpenSSLKey :=
  ⟨k.material.map (fun m => ⟨m.keyType, none, m.pubElem⟩)⟩

/-- `marshal` (src/crypto.cpp): X25519 raw 32 bytes; P256 uncompressed SEC1
(modelled as an `0x04` byte followed by the element). -/
def OpenSSLKey.marshalPub (k : OpenSSLKey) : Except CryptoError Bytes :=
  match k.material with
  | none => .error (.openSSLError "null key")
  | some m =>
    match m.keyType with
    | .X25519 => .ok (writeUint m.pubElem 32)
    | .P256 => .ok (4 :: writeUint m.pubElem 64)

/-- `OpenSSLKey::derive` (src/crypto.cpp lines 283-318): raw ECDH between a
private key and a peer public key.  Fails on a null or public-only private
key (the underlying `EVP_PKEY_derive` would); otherwise the 32-byte
big-endian encoding of the shared element `peer ^ scalar mod p`. -/
def OpenSSLKey.derive (priv pub : OpenSSLKey) : Except CryptoError Bytes :=
  match priv.material, pub.material with
  | some a, some b =>
    match a.privRaw with
    | some raw =>
      .ok (writeUint (b.pubElem ^ scalarOfRaw a.keyType raw % groupModulus a.keyType) 32)
    | none => .error (.openSSLError "EVP_PKEY_derive: not a private key")
  | _, _ => .error (.openSSLError "EVP_PKEY_derive: null key")

/-- `DHPublicKey` (src/include/crypto.h lines 215-237). -/
structure DHPublicKey where
  key : OpenSSLKey
deriving DecidableEq, Repr

/-- `DHPrivateKey` (src/include/crypto.h lines 244-267): the private key and
its cached public half. -/
structure DHPrivateKey where
  key : OpenSSLKey
  pub : DHPublicKey
deriving DecidableEq, Repr

/-- `DHPrivateKey::public_key` (src/crypto.cpp lines 948-952). -/
def DHPrivateKey.public_key (k : DHPrivateKey) : DHPublicKey := k.pub

/-- `DHPrivateKey::derive(seed)` (src/crypto.cpp lines 890-898): build a key
of the configured type, install the seed via `set_secret`, and cache the
public half.  The key type is fixed at build time by the `DH_KEY_TYPE`
macro (`P256` in this snapshot, with the `X25519` alternative present in
the source); the model takes it as a parameter, mirroring
`OpenSSLKey::create(DH_KEY_TYPE)`. -/
def DHPrivateKey.derive (t : OpenSSLKeyType) (seed : Bytes) : DHPrivateKey :=
  let k := OpenSSLKey.set_secret t seed
  ⟨k, ⟨k.dupPublic⟩⟩

/-- `DHPrivateKey::generate` (src/crypto.cpp lines 880-888), with system
randomness as an explicit entropy argument. -/
def DHPrivateKey.generate (t : OpenSSLKeyType) (entropy : Bytes) : DHPrivateKey :=
  let k := OpenSSLKey.generateKey t entropy
  ⟨k, ⟨k.dupPublic⟩⟩

/-- `DHPrivateKey::operator==` (src/crypto.cpp lines 930-934): compares the
underlying `OpenSSLKey`s. -/
def DHPrivateKey.beq (a b : DHPrivateKey) : Bool := OpenSSLKey.eq a.key b.key

/-- `DHPrivateKey::derive(pub)` (src/crypto.cpp lines 942-946) — the spec's
`dh_derive`: raw ECDH with a peer public key. -/
def DHPrivateKey.dh_derive (k : DHPrivateKey) (pub : DHPublicKey) :
    Except CryptoError Bytes :=
  OpenSSLKey.derive k.key pub.key

/-- `ECIESCiphertext` (src/include/crypto.h lines 269-277). -/
structure ECIESCiphertext where
  ephemeral : DHPublicKey
  content : Bytes
deriving DecidableEq, Repr

/-- `DHPublicKey::encrypt` (src/crypto.cpp lines 846-858): generate an
ephemeral keypair, derive the DH shared secret, expand it into the ECIES
key and nonce, and AES-GCM-encrypt the plaintext.  The ephemeral keypair's
randomness is an explicit entropy argument; its key type mirrors the
build-time `DH_KEY_TYPE`, which in any consistent build matches the
recipient key's type. -/
def DHPublicKey.encrypt (pub : DHPublicKey) (entropy pt : Bytes) :
    Except CryptoError ECIESCiphertext :=
  match pub.key.material with
  | none => .error (.openSSLError "null key")
  | some m => do
    let ephemeral := DHPrivateKey.generate m.keyType entropy
    let shared_secret ← OpenSSLKey.derive ephemeral.key pub.key
    let kn := derive_ecies_secrets shared_secret
    let gcm ← AESGCM.init kn.1 kn.2
    .ok ⟨ephemeral.public_key, gcm.encrypt pt⟩

/-- `DHPrivateKey::decrypt` (src/crypto.cpp lines 954-964): mirror of
`encrypt` — DH with the ephemeral public key, the same expansion, and
AES-GCM decryption of the content. -/
def DHPrivateKey.decrypt (priv : DHPrivateKey) (c : ECIESCiphertext) :
    Except CryptoError Bytes := do
  let shared_secret ← priv.dh_derive c.ephemeral
  let kn := derive_ecies_secrets shared_secret
  let gcm ← AESGCM.init kn.1 kn.2
  gcm.decrypt c.content

/-- The well-formedness of a DH keypair: key material present, raw private
material installed, and the cached public key carrying exactly the public
half of the private key (which is how `generate` and `derive` build it). -/
def DHPrivateKey.valid (k : DHPrivateKey) : Bool :=
  match k.key.material with
  | some m =>
    match m.privRaw with
    | some raw =>
      m.pubElem = pubElemOf m.keyType raw &&
        k.pub.key.material = some ⟨m.keyType, none, pubElemOf m.keyType raw⟩
    | none => false
  | none => false

/-- A sample AES-GCM instance (128-bit key, 12-byte nonce, no AAD). -/
def gcm0 : AESGCM := ⟨List.replicate 16 1, List.replicate 12 2, []⟩

end mls

namespace mls

@[simp] theorem writeUint_zero (v : Nat) : writeUint v 0 = [] := rfl

theorem writeUint_succ (v n : Nat) :
    writeUint v (n + 1) = (v / 256 ^ n) % 256 :: writeUint v n := rfl

@[simp] theorem writeUint_length (v n : Nat) : (writeUint v n).length = n := by
  induction n with
  | zero => rfl
  | succ n ih => simp [writeUint_succ, ih]

theorem writeUint_ne_nil (v n : Nat) : writeUint v (n + 1) ≠ [] := by
  simp [writeUint_succ]

/-- The encoding only depends on the value modulo `256 ^ length`. -/
theorem writeUint_mod (n : Nat) : ∀ v : Nat, writeUint (v % 256 ^ n) n = writeUint v n := by
  induction n with
  | zero => intro v; rfl
  | succ n ih =>
    intro v
    have hhead : v % 256 ^ (n + 1) / 256 ^ n % 256 = v / 256 ^ n % 256 := by
      have := Nat.mod_mul_right_div_self v (256 ^ n) 256
      rw [← pow_succ] at this
      rw [this]
      simp [Nat.mod_mod_of_dvd]
    have htail : writeUint (v % 256 ^ (n + 1)) n = writeUint v n := by
      have h1 : v % 256 ^ (n + 1) % 256 ^ n = v % 256 ^ n := by
        exact Nat.mod_mod_of_dvd v (pow_dvd_pow 256 (Nat.le_succ n))
      calc writeUint (v % 256 ^ (n + 1)) n
          = writeUint (v % 256 ^ (n + 1) % 256 ^ n) n := (ih (v % 256 ^ (n + 1))).symm
        _ = writeUint (v % 256 ^ n) n := by rw [h1]
        _ = writeUint v n := ih v
    simp [writeUint_succ, hhead, htail]

/-- Every byte produced by `write_uint` is a well-formed byte. -/
theorem writeUint_lt (v n : Nat) : ∀ b ∈ writeUint v n, b < 256 := by
  induction n with
  | zero => simp
  | succ n ih =>
    intro b hb
    simp only [writeUint_succ, List.mem_cons] at hb
    rcases hb with h | h
    · subst h; exact Nat.mod_lt _ (by norm_num)
    · exact ih b h

@[simp] theorem ok_bind {ε α β : Type} (a : α) (f : α → Except ε β) :
    (Except.ok a : Except ε α) >>= f = f a := rfl

@[simp] theorem error_bind {ε α β : Type} (e : ε) (f : α → Except ε β) :
    (Except.error e : Except ε α) >>= f = .error e := rfl

theorem readUintGo_writeUint (n : Nat) : ∀ (v acc : Nat) (rest : Bytes), v < 256 ^ n →
    readUintGo n acc (writeUint v n ++ rest) = .ok (acc * 256 ^ n + v, rest) := by
  induction n with
  | zero =>
    intro v acc rest hv
    interval_cases v
    simp [readUintGo]
  | succ n ih =>
    intro v acc rest hv
    have hq : v / 256 ^ n < 256 := by
      rw [Nat.div_lt_iff_lt_mul (Nat.pos_pow_of_pos n (by norm_num))]
      calc v < 256 ^ (n + 1) := hv
        _ = 256 * 256 ^ n := by ring
    have hhead : v / 256 ^ n % 256 = v / 256 ^ n := Nat.mod_eq_of_lt hq
    have hmod : writeUint v n = writeUint (v % 256 ^ n) n := (writeUint_mod n v).symm
    have hr : v % 256 ^ n < 256 ^ n := Nat.mod_lt _ (Nat.pos_pow_of_pos n (by norm_num))
    rw [writeUint_succ, hhead, hmod, List.cons_append]
    show readUintGo n (acc * 256 + v / 256 ^ n) (writeUint (v % 256 ^ n) n ++ rest) = _
    rw [ih (v % 256 ^ n) (acc * 256 + v / 256 ^ n) rest hr]
    congr 2
    have hv' : 256 ^ n * (v / 256 ^ n) + v % 256 ^ n = v := Nat.div_add_mod v (256 ^ n)
    calc (acc * 256 + v / 256 ^ n) * 256 ^ n + v % 256 ^ n
        = acc * 256 ^ (n + 1) + (256 ^ n * (v / 256 ^ n) + v % 256 ^ n) := by ring
      _ = acc * 256 ^ (n + 1) + v := by rw [hv']

/-- Round trip for fixed-width integers: reading back `write_uint(v, n)`
returns `v` and leaves the trailing bytes untouched. -/
theorem readUintE_writeUint {v n : Nat} (rest : Bytes) (hv : v < 256 ^ n) :
    readUintE n (writeUint v n ++ rest) = .ok (v, rest) := by
  unfold readUintE
  rw [readUintGo_writeUint n v 0 rest hv]
  simp

/-- A short buffer always fails with the (only) empty-buffer error. -/
theorem readUintGo_short (n : Nat) : ∀ (acc : Nat) (buf : Bytes), buf.length < n →
    readUintGo n acc buf = .error ⟨emptyBufferMsg⟩ := by
  induction n with
  | zero => intro acc buf h; omega
  | succ n ih =>
    intro acc buf h
    match buf with
    | [] => rfl
    | b :: rest =>
      simp only [List.length_cons] at h
      exact ih (acc * 256 + b) rest (by omega)

theorem readUintE_short {n : Nat} {buf : Bytes} (h : buf.length < n) :
    readUintE n buf = .error ⟨emptyBufferMsg⟩ :=
  readUintGo_short n 0 buf h

theorem readOpaque_enc {L : Nat} {bs : Bytes} (rest : Bytes) (h : bs.length < 256 ^ L) :
    readOpaque L (encOpaque L bs ++ rest) = .ok (bs, rest) := by
  unfold readOpaque encOpaque
  rw [List.append_assoc, readUintE_writeUint (bs ++ rest) h]
  have hle : bs.length ≤ (bs ++ rest).length := by simp
  simp [hle, List.take_left, List.drop_left]

theorem encList_length_ge {α : Type} (enc : α → Bytes) (xs : List α)
    (hne : ∀ x ∈ xs, enc x ≠ []) : xs.length ≤ (encList enc xs).length := by
  induction xs with
  | nil => simp [encList]
  | cons x xs ih =>
    have hx : enc x ≠ [] := hne x (by simp)
    have hlen : 1 ≤ (enc x).length := by
      cases h : enc x with
      | nil => exact absurd h hx
      | cons b bs => simp
    have := ih (fun y hy => hne y (by simp [hy]))
    simp only [encList, List.length_cons, List.length_append]
    omega

theorem readElems_encList {α : Type} {rd : Rd α} {enc : α → Bytes} {valid : α → Bool}
    (hrt : ∀ (v : α) (rest : Bytes), valid v = true → rd (enc v ++ rest) = .ok (v, rest))
    (hne : ∀ v : α, valid v = true → enc v ≠ []) :
    ∀ (xs : List α) (fuel : Nat), (∀ x ∈ xs, valid x = true) →
      xs.length ≤ fuel → readElems rd fuel (encList enc xs) = .ok xs := by
  intro xs
  induction xs with
  | nil => intro fuel _ _; cases fuel <;> rfl
  | cons x xs ih =>
    intro fuel hv hfuel
    have hvx : valid x = true := hv x (by simp)
    obtain ⟨f, rfl⟩ : ∃ f, fuel = f + 1 := by
      cases fuel with
      | zero => simp at hfuel
      | succ f => exact ⟨f, rfl⟩
    have hnex : enc x ≠ [] := hne x hvx
    obtain ⟨b, bs, hbs⟩ : ∃ b bs, enc x = b :: bs := by
      cases h : enc x with
      | nil => exact absurd h hnex
      | cons b bs => exact ⟨b, bs, rfl⟩
    have hstep : rd (enc x ++ encList enc xs) = .ok (x, encList enc xs) :=
      hrt x (encList enc xs) hvx
    have htail : readElems rd f (encList enc xs) = .ok xs :=
      ih f (fun y hy => hv y (by simp [hy])) (by simpa using hfuel)
    show readElems rd (f + 1) (encList enc (x :: xs)) = .ok (x :: xs)
    simp only [encList, hbs, List.cons_append]
    show (do
      let (x, r1) ← rd (b :: (bs ++ encList enc xs))
      let xs ← readElems rd f r1
      Except.ok (x :: xs)) = .ok (x :: xs)
    rw [← List.cons_append, ← hbs, hstep]
    simp [htail]

theorem readVec_enc {α : Type} {L : Nat} {rd : Rd α} {enc : α → Bytes} {valid : α → Bool}
    (hrt : ∀ (v : α) (rest : Bytes), valid v = true → rd (enc v ++ rest) = .ok (v, rest))
    (hne : ∀ v : α, valid v = true → enc v ≠ [])
    {xs : List α} (rest : Bytes) (hv : ∀ x ∈ xs, valid x = true)
    (hlen : (encList enc xs).length < 256 ^ L) :
    readVec L rd (encVec L enc xs ++ rest) = .ok (xs, rest) := by
  unfold readVec encVec encOpaque
  rw [List.append_assoc, readUintE_writeUint _ hlen]
  have hle : (encList enc xs).length ≤ (encList enc xs ++ rest).length := by simp
  have hfuel : xs.length ≤ (encList enc xs).length :=
    encList_length_ge enc xs (fun x hx => hne x (hv x hx))
  simp only [ok_bind, hle, if_pos, List.take_left, List.drop_left]
  rw [readElems_encList hrt hne xs _ hv hfuel]
  simp

theorem readOpt_enc {α : Type} {rd : Rd α} {enc : α → Bytes} {valid : α → Bool}
    (hrt : ∀ (v : α) (rest : Bytes), valid v = true → rd (enc v ++ rest) = .ok (v, rest))
    {v : Option α} (rest : Bytes) (hv : ∀ x ∈ v, valid x = true) :
    readOpt rd (encOpt enc v ++ rest) = .ok (v, rest) := by
  cases v with
  | none => rfl
  | some x =>
    show readOpt rd (1 :: (enc x ++ rest)) = .ok (some x, rest)
    show (do
      let (v, b2) ← rd (enc x ++ rest)
      Except.ok (some v, b2)) = .ok (some x, rest)
    rw [hrt x rest (hv x (by simp))]
    simp

theorem encOpt_ne_nil {α : Type} (enc : α → Bytes) (v : Option α) : encOpt enc v ≠ [] := by
  cases v <;> simp [encOpt]

end mls

namespace mls.wire

/-! ### Round-trip lemmas -/
theorem encOpaque_ne_nil (L : Nat) (bs : Bytes) : encOpaque (L + 1) bs ≠ [] := by
  simp [encOpaque, writeUint_succ]

theorem encDHPublicKey_ne_nil (k : DHPublicKey) : encDHPublicKey k ≠ [] :=
  encOpaque_ne_nil 1 k.raw

theorem encHPKECiphertext_ne_nil (c : HPKECiphertext) : encHPKECiphertext c ≠ [] := by
  simp only [encHPKECiphertext]
  intro h
  exact encDHPublicKey_ne_nil c.ephemeral (List.append_eq_nil.mp h).1

theorem encRatchetNode_ne_nil (n : RatchetNode) : encRatchetNode n ≠ [] := by
  simp only [encRatchetNode]
  intro h
  exact encDHPublicKey_ne_nil n.public_key (List.append_eq_nil.mp h).1

theorem encU8_ne_nil (b : Nat) : encU8 b ≠ [] := by simp [encU8, writeUint_succ]

theorem encSuite_ne_nil (s : CipherSuite) : encSuite s ≠ [] := by
  cases s <;> simp [encSuite, CipherSuite.toTag, writeUint_succ]

theorem option_all_mem {α : Type} {p : α → Bool} {v : Option α} (h : v.all p = true) :
    ∀ x ∈ v, p x = true := by
  cases v <;> simp_all [Option.all]

theorem readDHPublicKey_enc (k : DHPublicKey) (rest : Bytes) (h : k.valid = true) :
    readDHPublicKey (encDHPublicKey k ++ rest) = .ok (k, rest) := by
  simp only [DHPublicKey.valid, Bool.and_eq_true, decide_eq_true_eq] at h
  show (do
    let (raw, b1) ← readOpaque 2 (encOpaque 2 k.raw ++ rest)
    Except.ok ((⟨raw⟩ : DHPublicKey), b1)) = .ok (k, rest)
  rw [readOpaque_enc rest (by simpa using h.2)]
  simp

theorem readSignaturePublicKey_enc (k : SignaturePublicKey) (rest : Bytes)
    (h : k.valid = true) :
    readSignaturePublicKey (encSignaturePublicKey k ++ rest) = .ok (k, rest) := by
  simp only [SignaturePublicKey.valid, Bool.and_eq_true, decide_eq_true_eq] at h
  show (do
    let (raw, b1) ← readOpaque 2 (encOpaque 2 k.raw ++ rest)
    Except.ok ((⟨raw⟩ : SignaturePublicKey), b1)) = .ok (k, rest)
  rw [readOpaque_enc rest (by simpa using h.2)]
  simp

theorem readCredential_enc (c : Credential) (rest : Bytes) (h : c.valid = true) :
    readCredential (encCredential c ++ rest) = .ok (c, rest) := by
  simp only [Credential.valid, Bool.and_eq_true, decide_eq_true_eq] at h
  obtain ⟨⟨_, hlen⟩, hpk⟩ := h
  show readCredential
    ((writeUint 0 1 ++ encOpaque 2 c.user_id ++ encSignaturePublicKey c.public_key) ++ rest)
    = .ok (c, rest)
  have : (writeUint 0 1 ++ encOpaque 2 c.user_id ++ encSignaturePublicKey c.public_key) ++ rest
      = 0 :: (encOpaque 2 c.user_id ++ (encSignaturePublicKey c.public_key ++ rest)) := by
    simp [writeUint]
  rw [this]
  show (do
    let (uid, b2) ← readOpaque 2 (encOpaque 2 c.user_id ++
      (encSignaturePublicKey c.public_key ++ rest))
    let (pk, b3) ← readSignaturePublicKey b2
    Except.ok ((⟨uid, pk⟩ : Credential), b3)) = .ok (c, rest)
  rw [readOpaque_enc _ (by simpa using hlen)]
  simp only [ok_bind]
  rw [readSignaturePublicKey_enc c.public_key rest hpk]
  simp

theorem encCredential_ne_nil (c : Credential) : encCredential c ≠ [] := by
  simp [encCredential, writeUint]

theorem readHPKECiphertext_enc (c : HPKECiphertext) (rest : Bytes) (h : c.valid = true) :
    readHPKECiphertext (encHPKECiphertext c ++ rest) = .ok (c, rest) := by
  simp only [HPKECiphertext.valid, Bool.and_eq_true, decide_eq_true_eq] at h
  obtain ⟨⟨heph, _⟩, hlen⟩ := h
  show readHPKECiphertext ((encDHPublicKey c.ephemeral ++ encOpaque 3 c.content) ++ rest)
    = .ok (c, rest)
  rw [List.append_assoc]
  show (do
    let (eph, b1) ← readDHPublicKey (encDHPublicKey c.ephemeral ++
      (encOpaque 3 c.content ++ rest))
    let (content, b2) ← readOpaque 3 b1
    Except.ok ((⟨eph, content⟩ : HPKECiphertext), b2)) = .ok (c, rest)
  rw [readDHPublicKey_enc c.ephemeral _ heph]
  simp only [ok_bind]
  rw [readOpaque_enc rest (by simpa using hlen)]
  simp

theorem readVecHPKE_enc (ns : List HPKECiphertext) (rest : Bytes)
    (hv : ∀ x ∈ ns, x.valid = true)
    (hlen : (encList encHPKECiphertext ns).length < 2 ^ 16) :
    readVec 2 readHPKECiphertext (encVec 2 encHPKECiphertext ns ++ rest) = .ok (ns, rest) :=
  readVec_enc readHPKECiphertext_enc (fun v _ => encHPKECiphertext_ne_nil v) rest hv
    (by simpa using hlen)

theorem readRatchetNode_enc (n : RatchetNode) (rest : Bytes) (h : n.valid = true) :
    readRatchetNode (encRatchetNode n ++ rest) = .ok (n, rest) := by
  simp only [RatchetNode.valid, Bool.and_eq_true, decide_eq_true_eq,
    List.all_eq_true] at h
  obtain ⟨⟨hpk, hns⟩, hlen⟩ := h
  show readRatchetNode
    ((encDHPublicKey n.public_key ++ encVec 2 encHPKECiphertext n.node_secrets) ++ rest)
    = .ok (n, rest)
  rw [List.append_assoc]
  show (do
    let (pk, b1) ← readDHPublicKey (encDHPublicKey n.public_key ++
      (encVec 2 encHPKECiphertext n.node_secrets ++ rest))
    let (ns, b2) ← readVec 2 readHPKECiphertext b1
    Except.ok ((⟨pk, ns⟩ : RatchetNode), b2)) = .ok (n, rest)
  rw [readDHPublicKey_enc n.public_key _ hpk]
  simp only [ok_bind]
  rw [readVecHPKE_enc n.node_secrets rest hns hlen]
  simp

theorem readVecRatchetNode_enc (ns : List RatchetNode) (rest : Bytes)
    (hv : ∀ x ∈ ns, x.valid = true)
    (hlen : (encList encRatchetNode ns).length < 2 ^ 16) :
    readVec 2 readRatchetNode (encVec 2 encRatchetNode ns ++ rest) = .ok (ns, rest) :=
  readVec_enc readRatchetNode_enc (fun v _ => encRatchetNode_ne_nil v) rest hv
    (by simpa using hlen)

theorem readDirectPath_enc (p : DirectPath) (rest : Bytes) (h : p.valid = true) :
    readDirectPath (encDirectPath p ++ rest) = .ok (p, rest) := by
  simp only [DirectPath.valid, Bool.and_eq_true, decide_eq_true_eq,
    List.all_eq_true] at h
  show (do
    let (ns, b1) ← readVec 2 readRatchetNode (encVec 2 encRatchetNode p.nodes ++ rest)
    Except.ok ((⟨ns⟩ : DirectPath), b1)) = .ok (p, rest)
  rw [readVecRatchetNode_enc p.nodes rest h.1 h.2]
  simp

theorem readU8_enc (b : Nat) (rest : Bytes) (h : (b < 256 : Bool) = true) :
    readU8 (encU8 b ++ rest) = .ok (b, rest) := by
  simp only [decide_eq_true_eq] at h
  exact readUintE_writeUint rest (by simpa using h)

theorem readSuite_enc (s : CipherSuite) (rest : Bytes)
    (h : (fun _ : CipherSuite => true) s = true) :
    readSuite (encSuite s ++ rest) = .ok (s, rest) := by
  cases s <;> rfl

theorem readVecU8_enc (vs : List Nat) (rest : Bytes)
    (hv : ∀ v ∈ vs, (v < 256 : Bool) = true)
    (hlen : (encList encU8 vs).length < 2 ^ 8) :
    readVec 1 readU8 (encVec 1 encU8 vs ++ rest) = .ok (vs, rest) :=
  readVec_enc readU8_enc (fun v _ => encU8_ne_nil v) rest hv (by simpa using hlen)

theorem readVecSuite_enc (ss : List CipherSuite) (rest : Bytes)
    (hlen : (encList encSuite ss).length < 2 ^ 8) :
    readVec 1 readSuite (encVec 1 encSuite ss ++ rest) = .ok (ss, rest) :=
  readVec_enc readSuite_enc (fun v _ => encSuite_ne_nil v) rest (fun _ _ => rfl)
    (by simpa using hlen)

theorem readOpaque2_elem_enc (k : Bytes) (rest : Bytes)
    (h : (validBytes k && (k.length < 2 ^ 16 : Bool)) = true) :
    readOpaque 2 (encOpaque 2 k ++ rest) = .ok (k, rest) := by
  simp only [Bool.and_eq_true, decide_eq_true_eq] at h
  exact readOpaque_enc rest (by simpa using h.2)

theorem readVecOpaque2_enc (ks : List Bytes) (rest : Bytes)
    (hv : ∀ k ∈ ks, (validBytes k && (k.length < 2 ^ 16 : Bool)) = true)
    (hlen : (encList (encOpaque 2) ks).length < 2 ^ 16) :
    readVec 2 (readOpaque 2) (encVec 2 (encOpaque 2) ks ++ rest) = .ok (ks, rest) :=
  readVec_enc readOpaque2_elem_enc (fun v _ => encOpaque_ne_nil 1 v) rest hv
    (by simpa using hlen)

theorem readOptCredential_enc (c : Option Credential) (rest : Bytes)
    (h : c.all Credential.valid = true) :
    readOpt readCredential (encOpt encCredential c ++ rest) = .ok (c, rest) :=
  readOpt_enc readCredential_enc rest (option_all_mem h)

theorem readOptDHPublicKey_enc (k : Option DHPublicKey) (rest : Bytes)
    (h : k.all DHPublicKey.valid = true) :
    readOpt readDHPublicKey (encOpt encDHPublicKey k ++ rest) = .ok (k, rest) :=
  readOpt_enc readDHPublicKey_enc rest (option_all_mem h)

theorem readRoster_enc (r : Roster) (rest : Bytes) (h : r.valid = true) :
    readRoster (encRoster r ++ rest) = .ok (r, rest) := by
  simp only [Roster.valid, Bool.and_eq_true, decide_eq_true_eq, List.all_eq_true] at h
  show (do
    let (cs, b1) ← readVec 4 (readOpt readCredential)
      (encVec 4 (encOpt encCredential) r.credentials ++ rest)
    Except.ok ((⟨cs⟩ : Roster), b1)) = .ok (r, rest)
  rw [readVec_enc readOptCredential_enc (fun v _ => encOpt_ne_nil encCredential v) rest h.1
    (by simpa using h.2)]
  simp

theorem readRatchetTree_enc (t : RatchetTree) (rest : Bytes) (h : t.valid = true) :
    readRatchetTree (encRatchetTree t ++ rest) = .ok (t, rest) := by
  simp only [RatchetTree.valid, Bool.and_eq_true, decide_eq_true_eq, List.all_eq_true] at h
  show (do
    let (ns, b1) ← readVec 4 (readOpt readDHPublicKey)
      (encVec 4 (encOpt encDHPublicKey) t.nodes ++ rest)
    Except.ok ((⟨ns⟩ : RatchetTree), b1)) = .ok (t, rest)
  rw [readVec_enc readOptDHPublicKey_enc (fun v _ => encOpt_ne_nil encDHPublicKey v) rest h.1
    (by simpa using h.2)]
  simp

theorem readUserInitKey_enc (u : UserInitKey) (rest : Bytes) (h : u.valid = true) :
    readUserInitKey (encUserInitKey u ++ rest) = .ok (u, rest) := by
  simp only [UserInitKey.valid, Bool.and_eq_true, decide_eq_true_eq] at h
  obtain ⟨⟨⟨⟨⟨⟨⟨⟨⟨_, h2⟩, h3⟩, h4⟩, h5⟩, h6⟩, h7⟩, h8⟩, _⟩, h10⟩ := h
  simp only [List.all_eq_true] at h3 h6
  simp only [readUserInitKey, encUserInitKey, List.append_assoc]
  rw [readOpaque_enc _ (by simpa using h2)]
  simp only [ok_bind]
  rw [readVecU8_enc u.supported_versions _ (fun v hv => by simpa using h3 v hv) h4]
  simp only [ok_bind]
  rw [readVecSuite_enc u.cipher_suites _ h5]
  simp only [ok_bind]
  rw [readVecOpaque2_enc u.init_keys _ (fun k hk => by simpa using h6 k hk) h7]
  simp only [ok_bind]
  rw [readCredential_enc u.credential _ h8]
  simp only [ok_bind]
  rw [readOpaque_enc rest (by simpa using h10)]
  simp

theorem readWelcomeInfo_enc (w : WelcomeInfo) (rest : Bytes) (h : w.valid = true) :
    readWelcomeInfo (encWelcomeInfo w ++ rest) = .ok (w, rest) := by
  simp only [WelcomeInfo.valid, Bool.and_eq_true, decide_eq_true_eq] at h
  obtain ⟨⟨⟨⟨⟨⟨⟨⟨⟨h1, _⟩, h3⟩, h4⟩, h5⟩, h6⟩, _⟩, h8⟩, _⟩, h10⟩ := h
  simp only [readWelcomeInfo, encWelcomeInfo, List.append_assoc]
  rw [readUintE_writeUint _ (by simpa using h1)]
  simp only [ok_bind]
  rw [readOpaque_enc _ (by simpa using h3)]
  simp only [ok_bind]
  rw [readUintE_writeUint _ (by simpa using h4)]
  simp only [ok_bind]
  rw [readRoster_enc w.roster _ h5]
  simp only [ok_bind]
  rw [readRatchetTree_enc w.tree _ h6]
  simp only [ok_bind]
  rw [readOpaque_enc _ (by simpa using h8)]
  simp only [ok_bind]
  rw [readOpaque_enc rest (by simpa using h10)]
  simp

theorem readWelcome_enc (w : Welcome) (rest : Bytes) (h : w.valid = true) :
    readWelcome (encWelcome w ++ rest) = .ok (w, rest) := by
  simp only [Welcome.valid, Bool.and_eq_true, decide_eq_true_eq] at h
  obtain ⟨⟨_, h2⟩, h3⟩ := h
  simp only [readWelcome, encWelcome, List.append_assoc]
  rw [readOpaque_enc _ (by simpa using h2)]
  simp only [ok_bind]
  rw [readSuite_enc w.cipher_suite _ rfl]
  simp only [ok_bind]
  rw [readHPKECiphertext_enc w.encrypted_welcome_info rest h3]
  simp

theorem readAdd_enc (a : Add) (rest : Bytes) (h : a.valid = true) :
    readAdd (encAdd a ++ rest) = .ok (a, rest) := by
  simp only [Add.valid, Bool.and_eq_true, decide_eq_true_eq] at h
  obtain ⟨⟨⟨h1, h2⟩, _⟩, h4⟩ := h
  simp only [readAdd, encAdd, List.append_assoc]
  rw [readUintE_writeUint _ (by simpa using h1)]
  simp only [ok_bind]
  rw [readUserInitKey_enc a.init_key _ h2]
  simp only [ok_bind]
  rw [readOpaque_enc rest (by simpa using h4)]
  simp

theorem readUpdate_enc (u : Update) (rest : Bytes) (h : u.valid = true) :
    readUpdate (encUpdate u ++ rest) = .ok (u, rest) := by
  simp only [readUpdate, encUpdate]
  rw [readDirectPath_enc u.path rest (by simpa [Update.valid] using h)]
  simp

theorem readRemove_enc (r : Remove) (rest : Bytes) (h : r.valid = true) :
    readRemove (encRemove r ++ rest) = .ok (r, rest) := by
  simp only [Remove.valid, Bool.and_eq_true, decide_eq_true_eq] at h
  simp only [readRemove, encRemove, List.append_assoc]
  rw [readUintE_writeUint _ (by simpa using h.1)]
  simp only [ok_bind]
  rw [readDirectPath_enc r.path rest h.2]
  simp

theorem readGroupOperation_enc (op : GroupOperation) (rest : Bytes)
    (h : op.valid = true) :
    readGroupOperation (encGroupOperation op ++ rest) = .ok (op, rest) := by
  cases op with
  | add a =>
    show readGroupOperation (1 :: (encAdd a ++ rest)) = .ok (.add a, rest)
    show (do
      let (a, b2) ← readAdd (encAdd a ++ rest)
      Except.ok ((.add a : GroupOperation), b2)) = .ok (.add a, rest)
    rw [readAdd_enc a rest (by simpa [GroupOperation.valid] using h)]
    simp
  | update u =>
    show readGroupOperation (2 :: (encUpdate u ++ rest)) = .ok (.update u, rest)
    show (do
      let (u, b2) ← readUpdate (encUpdate u ++ rest)
      Except.ok ((.update u : GroupOperation), b2)) = .ok (.update u, rest)
    rw [readUpdate_enc u rest (by simpa [GroupOperation.valid] using h)]
    simp
  | remove r =>
    show readGroupOperation (3 :: (encRemove r ++ rest)) = .ok (.remove r, rest)
    show (do
      let (r, b2) ← readRemove (encRemove r ++ rest)
      Except.ok ((.remove r : GroupOperation), b2)) = .ok (.remove r, rest)
    rw [readRemove_enc r rest (by simpa [GroupOperation.valid] using h)]
    simp

theorem readHandshake_enc (hs : Handshake) (rest : Bytes) (h : hs.valid = true) :
    readHandshake (encHandshake hs ++ rest) = .ok (hs, rest) := by
  simp only [Handshake.valid, Bool.and_eq_true, decide_eq_true_eq] at h
  obtain ⟨⟨⟨⟨⟨⟨h1, h2⟩, h3⟩, _⟩, h5⟩, _⟩, h7⟩ := h
  simp only [readHandshake, encHandshake, List.append_assoc]
  rw [readUintE_writeUint _ (by simpa using h1)]
  simp only [ok_bind]
  rw [readGroupOperation_enc hs.operation _ h2]
  simp only [ok_bind]
  rw [readUintE_writeUint _ (by simpa using h3)]
  simp only [ok_bind]
  rw [readOpaque_enc _ (by simpa using h5)]
  simp only [ok_bind]
  rw [readOpaque_enc rest (by simpa using h7)]
  simp

theorem roundTrips_of_enc {α : Type} {enc : α → Bytes} {rd : Rd α} {valid : α → Bool}
    (h : ∀ (v : α) (rest : Bytes), valid v = true → rd (enc v ++ rest) = .ok (v, rest)) :
    RoundTrips enc rd valid := by
  intro v hv
  refine ⟨v, ?_, rfl, rfl⟩
  have := h v [] hv
  rwa [List.append_nil] at this

end mls.wire

namespace mls

/-! ### Crypto support lemmas -/
@[simp] theorem sha256M_length (data : Bytes) : (sha256M data).length = 32 := by
  simp [sha256M]

@[simp] theorem hmac_sha256_length (key data : Bytes) :
    (hmac_sha256 key data).length = 32 := by
  simp [hmac_sha256]

@[simp] theorem resize_length (n : Nat) (bs : Bytes) : (resize n bs).length = n := by
  simp only [resize, List.length_append, List.length_take, List.length_replicate]
  omega

@[simp] theorem hkdf_expand_length (secret info : Bytes) (size : Nat) :
    (hkdf_expand secret info size).length = size := by
  simp [hkdf_expand]

@[simp] theorem ctrStream_length (key nonce : Bytes) :
    ∀ (off : Nat) (pt : Bytes), (ctrStream key nonce off pt).length = pt.length := by
  intro off pt
  induction pt generalizing off with
  | nil => rfl
  | cons b rest ih => simp [ctrStream, ih]

theorem ctrStream_involution (key nonce : Bytes) :
    ∀ (off : Nat) (pt : Bytes),
      ctrStream key nonce off (ctrStream key nonce off pt) = pt := by
  intro off pt
  induction pt generalizing off with
  | nil => rfl
  | cons b rest ih =>
    simp [ctrStream, ih, Nat.xor_cancel_right]

@[simp] theorem gcmTag_length (key nonce aad ct : Bytes) :
    (gcmTag key nonce aad ct).length = 16 := by
  simp [gcmTag, AESGCM.tag_size]

/-- AES-GCM one-shot round trip: decrypting an encryption returns the
plaintext (the contracted behaviour of the external primitive, derived
here from the repository's tag/length handling and the keystream model). -/
theorem AESGCM.decrypt_encrypt (gcm : AESGCM) (pt : Bytes) :
    gcm.decrypt (gcm.encrypt pt) = .ok pt := by
  unfold AESGCM.encrypt AESGCM.decrypt
  set body := ctrStream gcm.key gcm.nonce 0 pt with hbody
  set tag := gcmTag gcm.key gcm.nonce gcm.aad body with htag
  have hbl : body.length = pt.length := ctrStream_length _ _ _ _
  have htl : tag.length = 16 := gcmTag_length _ _ _ _
  have hctlen : (body ++ tag).length = pt.length + 16 := by
    simp [hbl, htl]
  have hnotshort : ¬ (body ++ tag).length < AESGCM.tag_size := by
    simp only [hctlen, AESGCM.tag_size]
    omega
  rw [if_neg hnotshort]
  have hsub : (body ++ tag).length - AESGCM.tag_size = body.length := by
    simp only [hctlen, AESGCM.tag_size, hbl]
    omega
  rw [hsub, List.take_left, List.drop_left, if_pos rfl, hbody,
    ctrStream_involution]

/-- DH commutativity in the modelled group: both orders of raw ECDH yield
the same shared element. -/
theorem dh_comm (t : OpenSSLKeyType) (a b : Nat) :
    (groupGen t ^ a % groupModulus t) ^ b % groupModulus t
      = (groupGen t ^ b % groupModulus t) ^ a % groupModulus t := by
  rw [← Nat.pow_mod, ← Nat.pow_mod, ← pow_mul, ← pow_mul, Nat.mul_comm]

/-- `DHPrivateKey::generate` installs a raw private value (the entropy for
P256, its domain-separated digest for X25519) and caches the matching
public half. -/
theorem generate_shape (t : OpenSSLKeyType) (entropy : Bytes) :
    ∃ eraw, DHPrivateKey.generate t entropy
      = ⟨⟨some ⟨t, some eraw, pubElemOf t eraw⟩⟩, ⟨⟨some ⟨t, none, pubElemOf t eraw⟩⟩⟩⟩ := by
  cases t with
  | P256 => exact ⟨entropy, rfl⟩
  | X25519 => exact ⟨sha256M (dhHashPfx ++ entropy), rfl⟩

theorem derive_ecies_key_length (shared : Bytes) :
    (derive_ecies_secrets shared).1.length = 16 := by
  simp [derive_ecies_secrets, AESGCM.key_size_128]

theorem derive_ecies_nonce_length (shared : Bytes) :
    (derive_ecies_secrets shared).2.length = 12 := by
  simp [derive_ecies_secrets, AESGCM.nonce_size]

/-- `AESGCM::init` accepts the ECIES-derived key and nonce. -/
theorem AESGCM.init_ecies (shared : Bytes) :
    AESGCM.init (derive_ecies_secrets shared).1 (derive_ecies_secrets shared).2
      = .ok ⟨(derive_ecies_secrets shared).1, (derive_ecies_secrets shared).2, []⟩ := by
  unfold AESGCM.init
  rw [derive_ecies_key_length, derive_ecies_nonce_length]
  simp [AESGCM.key_size_128, AESGCM.nonce_size]

theorem shared_comm (t : OpenSSLKeyType) (r e : Bytes) :
    pubElemOf t e ^ scalarOfRaw t r % groupModulus t
      = pubElemOf t r ^ scalarOfRaw t e % groupModulus t := by
  unfold pubElemOf
  exact dh_comm t (scalarOfRaw t e) (scalarOfRaw t r)

/-- The ECIES/HPKE round trip: encrypting to the public half of any
well-formed keypair and decrypting with its private half returns the
plaintext. -/
theorem ecies_round_trip (priv : DHPrivateKey) (entropy pt : Bytes)
    (h : priv.valid = true) :
    ∃ ct, priv.public_key.encrypt entropy pt = .ok ct ∧ priv.decrypt ct = .ok pt := by
  obtain ⟨⟨km⟩, ⟨⟨pm⟩⟩⟩ := priv
  cases km with
  | none => simp [DHPrivateKey.valid] at h
  | some m =>
    obtain ⟨t, praw, pe⟩ := m
    cases praw with
    | none => simp [DHPrivateKey.valid] at h
    | some raw =>
      simp only [DHPrivateKey.valid, Bool.and_eq_true, decide_eq_true_eq] at h
      obtain ⟨hpe, hpm⟩ := h
      subst hpe
      subst hpm
      obtain ⟨eraw, hgen⟩ := generate_shape t entropy
      simp only [DHPrivateKey.public_key, DHPublicKey.encrypt, hgen,
        OpenSSLKey.derive, ok_bind]
      rw [AESGCM.init_ecies]
      simp only [ok_bind]
      refine ⟨_, rfl, ?_⟩
      simp only [DHPrivateKey.decrypt, DHPrivateKey.dh_derive, OpenSSLKey.derive,
        ok_bind]
      rw [shared_comm]
      rw [AESGCM.init_ecies]
      simp only [ok_bind]
      exact AESGCM.decrypt_encrypt _ pt

/-!
## Claim theorems
-/
/-- C1.  Wire round-trip: for every message type M (UserInitKey,
WelcomeInfo, Welcome, Add, Update, Remove, Handshake, DirectPath,
RatchetNode) and every valid value v, `unmarshal(marshal(v)) == v` and
`marshal(unmarshal(marshal(v))) == marshal(v)` — unmarshalling the
marshalled bytes consumes them exactly, returns the value itself, and
re-marshalling it reproduces byte-identical output. -/
theorem C1_wire_round_trip :
    wire.RoundTrips wire.encUserInitKey wire.readUserInitKey wire.UserInitKey.valid ∧
    wire.RoundTrips wire.encWelcomeInfo wire.readWelcomeInfo wire.WelcomeInfo.valid ∧
    wire.RoundTrips wire.encWelcome wire.readWelcome wire.Welcome.valid ∧
    wire.RoundTrips wire.encAdd wire.readAdd wire.Add.valid ∧
    wire.RoundTrips wire.encUpdate wire.readUpdate wire.Update.valid ∧
    wire.RoundTrips wire.encRemove wire.readRemove wire.Remove.valid ∧
    wire.RoundTrips wire.encHandshake wire.readHandshake wire.Handshake.valid ∧
    wire.RoundTrips wire.encDirectPath wire.readDirectPath wire.DirectPath.valid ∧
    wire.RoundTrips wire.encRatchetNode wire.readRatchetNode wire.RatchetNode.valid :=
  ⟨wire.roundTrips_of_enc wire.readUserInitKey_enc,
   wire.roundTrips_of_enc wire.readWelcomeInfo_enc,
   wire.roundTrips_of_enc wire.readWelcome_enc,
   wire.roundTrips_of_enc wire.readAdd_enc,
   wire.roundTrips_of_enc wire.readUpdate_enc,
   wire.roundTrips_of_enc wire.readRemove_enc,
   wire.roundTrips_of_enc wire.readHandshake_enc,
   wire.roundTrips_of_enc wire.readDirectPath_enc,
   wire.roundTrips_of_enc wire.readRatchetNode_enc⟩

/-- Witness for C1: the round trip evaluated at concrete values of all nine
message types. -/
theorem C1_wire_round_trip_witness :
    (wire.UserInitKey.valid wire.uik0 = true ∧ ∃ w,
      wire.readUserInitKey (wire.encUserInitKey wire.uik0) = .ok (w, []) ∧
      w = wire.uik0 ∧ wire.encUserInitKey w = wire.encUserInitKey wire.uik0) ∧
    (wire.WelcomeInfo.valid wire.winfo0 = true ∧ ∃ w,
      wire.readWelcomeInfo (wire.encWelcomeInfo wire.winfo0) = .ok (w, []) ∧
      w = wire.winfo0 ∧ wire.encWelcomeInfo w = wire.encWelcomeInfo wire.winfo0) ∧
    (wire.Welcome.valid wire.welcome0 = true ∧ ∃ w,
      wire.readWelcome (wire.encWelcome wire.welcome0) = .ok (w, []) ∧
      w = wire.welcome0 ∧ wire.encWelcome w = wire.encWelcome wire.welcome0) ∧
    (wire.Add.valid wire.add0 = true ∧ ∃ w,
      wire.readAdd (wire.encAdd wire.add0) = .ok (w, []) ∧
      w = wire.add0 ∧ wire.encAdd w = wire.encAdd wire.add0) ∧
    (wire.Update.valid wire.update0 = true ∧ ∃ w,
      wire.readUpdate (wire.encUpdate wire.update0) = .ok (w, []) ∧
      w = wire.update0 ∧ wire.encUpdate w = wire.encUpdate wire.update0) ∧
    (wire.Remove.valid wire.remove0 = true ∧ ∃ w,
      wire.readRemove (wire.encRemove wire.remove0) = .ok (w, []) ∧
      w = wire.remove0 ∧ wire.encRemove w = wire.encRemove wire.remove0) ∧
    (wire.Handshake.valid wire.handshake0 = true ∧ ∃ w,
      wire.readHandshake (wire.encHandshake wire.handshake0) = .ok (w, []) ∧
      w = wire.handshake0 ∧ wire.encHandshake w = wire.encHandshake wire.handshake0) ∧
    (wire.DirectPath.valid wire.dpath0 = true ∧ ∃ w,
      wire.readDirectPath (wire.encDirectPath wire.dpath0) = .ok (w, []) ∧
      w = wire.dpath0 ∧ wire.encDirectPath w = wire.encDirectPath wire.dpath0) ∧
    (wire.RatchetNode.valid wire.rnode0 = true ∧ ∃ w,
      wire.readRatchetNode (wire.encRatchetNode wire.rnode0) = .ok (w, []) ∧
      w = wire.rnode0 ∧ wire.encRatchetNode w = wire.encRatchetNode wire.rnode0) :=
  ⟨⟨by decide, C1_wire_round_trip.1 wire.uik0 (by decide)⟩,
   ⟨by decide, C1_wire_round_trip.2.1 wire.winfo0 (by decide)⟩,
   ⟨by decide, C1_wire_round_trip.2.2.1 wire.welcome0 (by decide)⟩,
   ⟨by decide, C1_wire_round_trip.2.2.2.1 wire.add0 (by decide)⟩,
   ⟨by decide, C1_wire_round_trip.2.2.2.2.1 wire.update0 (by decide)⟩,
   ⟨by decide, C1_wire_round_trip.2.2.2.2.2.1 wire.remove0 (by decide)⟩,
   ⟨by decide, C1_wire_round_trip.2.2.2.2.2.2.1 wire.handshake0 (by decide)⟩,
   ⟨by decide, C1_wire_round_trip.2.2.2.2.2.2.2.1 wire.dpath0 (by decide)⟩,
   ⟨by decide, C1_wire_round_trip.2.2.2.2.2.2.2.2 wire.rnode0 (by decide)⟩⟩

/-- C2.  HPKE/ECIES round-trip: for every plaintext and every well-formed
DH keypair (the cached public key being exactly `priv.public_key()`),
`DHPrivateKey::decrypt` applied to the result of `DHPublicKey::encrypt`
returns the plaintext, for both key types (ciphersuites). -/
theorem C2_hpke_round_trip :
    ∀ (priv : DHPrivateKey) (entropy pt : Bytes), priv.valid = true →
      ∃ ct, priv.public_key.encrypt entropy pt = .ok ct ∧ priv.decrypt ct = .ok pt :=
  fun priv entropy pt h => ecies_round_trip priv entropy pt h

/-- Witness for C2: the round trip at a concrete seed, entropy and
plaintext, for each of the two key types. -/
theorem C2_hpke_round_trip_witness :
    ((DHPrivateKey.derive .P256 [1, 2]).valid = true ∧ ∃ ct,
      (DHPrivateKey.derive .P256 [1, 2]).public_key.encrypt [3] [4, 5] = .ok ct ∧
      (DHPrivateKey.derive .P256 [1, 2]).decrypt ct = .ok [4, 5]) ∧
    ((DHPrivateKey.derive .X25519 [1, 2]).valid = true ∧ ∃ ct,
      (DHPrivateKey.derive .X25519 [1, 2]).public_key.encrypt [3] [4, 5] = .ok ct ∧
      (DHPrivateKey.derive .X25519 [1, 2]).decrypt ct = .ok [4, 5]) :=
  ⟨⟨by decide, C2_hpke_round_trip _ [3] [4, 5] (by decide)⟩,
   ⟨by decide, C2_hpke_round_trip _ [3] [4, 5] (by decide)⟩⟩

/-- C3.  The claim says `hkdf_expand` must fail with an error for output
lengths L > 32; the source (src/crypto.cpp lines 607-616) performs no such
check — `mac.resize(size)` zero-extends the 32-byte HMAC output, so for
L = 33 the function returns a 33-byte string (the full HMAC output followed
by a zero byte) instead of failing.  This contradicts the source's own
comment ("This method requires that size <= Hash.length"): the code is the
slip, the claim the intent. -/
theorem C3_hkdf_expand_no_reject :
    (hkdf_expand [] [] 33).length = 33 ∧
    hkdf_expand [] [] 33 = hmac_sha256 [] [1] ++ [0] := by
  constructor
  · exact hkdf_expand_length [] [] 33
  · decide

/-- C4.  HKDF-Expand single-block equation: for L ≤ 32 the expansion is the
first L bytes of `HMAC-SHA256(secret, marshal(info) || 0x01)`. -/
theorem C4_hkdf_expand_single_block :
    ∀ (secret info : Bytes) (L : Nat), L ≤ 32 →
      hkdf_expand secret info L = (hmac_sha256 secret (info ++ [1])).take L := by
  intro s i L hL
  unfold hkdf_expand resize
  rw [hmac_sha256_length]
  have h0 : L - 32 = 0 := by omega
  simp [h0]

/-- Witness for C4 at concrete inputs. -/
theorem C4_hkdf_expand_single_block_witness :
    7 ≤ 32 ∧ hkdf_expand [1] [2] 7 = (hmac_sha256 [1] ([2] ++ [1])).take 7 :=
  ⟨by decide, C4_hkdf_expand_single_block [1] [2] 7 (by decide)⟩

/-- C5.  ECIES key/nonce derivation: `derive_ecies_secrets` returns exactly
the pair of the 16-byte expansion whose info is the serialized `HKDFLabel`
with length 16 and label "mls10 ecies key" (and a default-constructed group
state), and the 12-byte expansion with length 12 and label
"mls10 ecies nonce". -/
theorem C5_ecies_key_nonce_derivation :
    ∀ shared : Bytes,
      derive_ecies_secrets shared
        = (hkdf_expand shared
             (marshalHKDFLabel ⟨16, strBytes "mls10 ecies key", State.default⟩) 16,
           hkdf_expand shared
             (marshalHKDFLabel ⟨12, strBytes "mls10 ecies nonce", State.default⟩) 12) ∧
      (derive_ecies_secrets shared).1.length = 16 ∧
      (derive_ecies_secrets shared).2.length = 12 :=
  fun shared => ⟨rfl, derive_ecies_key_length shared, derive_ecies_nonce_length shared⟩

/-- C6.  Deterministic key derivation: two calls of
`DHPrivateKey::derive(seed)` produce keypairs equal under `operator==`
whose public keys marshal to identical bytes, and the installed private
key material is `SHA256(dh_hash_prefix || seed)`.  In the model, `derive`
takes no entropy input (unlike `generate`), so the two calls denote the
same pure function application; the theorem states the `operator==`
equality, the shared marshalled public bytes, and the material equation. -/
theorem C6_deterministic_derive :
    ∀ (t : OpenSSLKeyType) (seed : Bytes),
      (DHPrivateKey.derive t seed).beq (DHPrivateKey.derive t seed) = true ∧
      (∃ bs, (DHPrivateKey.derive t seed).public_key.key.marshalPub = .ok bs ∧
        (DHPrivateKey.derive t seed).public_key.key.marshalPub = .ok bs) ∧
      (DHPrivateKey.derive t seed).key.material
        = some ⟨t, some (sha256M (dhHashPfx ++ seed)),
            pubElemOf t (sha256M (dhHashPfx ++ seed))⟩ := by
  intro t seed
  refine ⟨?_, ?_, rfl⟩
  · simp [DHPrivateKey.beq, DHPrivateKey.derive, OpenSSLKey.set_secret,
      OpenSSLKey.eq, evpPkeyCmp]
  · cases t with
    | P256 => exact ⟨_, rfl, rfl⟩
    | X25519 => exact ⟨_, rfl, rfl⟩

/-- C7 (amended).  Short-read behaviour: for every N ∈ {1,2,4,8}, reading a
fixed-width uintN from a buffer holding fewer than N bytes fails with the
codec read error — a fixed "Attempt to read from empty buffer" message
carrying no position information — and in particular never returns a
value. -/
theorem C7_short_read_fails :
    ∀ n : Nat, (n = 1 ∨ n = 2 ∨ n = 4 ∨ n = 8) →
      ∀ buf : Bytes, buf.length < n →
        readUintE n buf = .error ⟨emptyBufferMsg⟩ ∧
        ∀ (v : Nat) (rest : Bytes), readUintE n buf ≠ .ok (v, rest) := by
  intro n _ buf hlen
  refine ⟨readUintE_short hlen, ?_⟩
  intro v rest hok
  rw [readUintE_short hlen] at hok
  simp at hok

/-- Witness for C7 at a concrete short buffer. -/
theorem C7_short_read_fails_witness :
    (4 = 1 ∨ 4 = 2 ∨ 4 = 4 ∨ 4 = 8) ∧ ([1, 2] : Bytes).length < 4 ∧
      readUintE 4 [1, 2] = .error ⟨emptyBufferMsg⟩ :=
  ⟨by decide, by decide, (C7_short_read_fails 4 (by decide) [1, 2] (by decide)).1⟩

/-- C7 counterexample to the claim as stated: the error produced by a short
read is one fixed value.  A 4-byte read from a 2-byte buffer fails at
position 2; an 8-byte read from an empty buffer fails at position 0 — yet
the two errors are identical, so the error cannot carry the position of
the failure. -/
theorem C7_no_position_info :
    readUintE 4 [1, 2] = readUintE 8 [] ∧
    readUintE 4 [1, 2] = .error ⟨emptyBufferMsg⟩ :=
  ⟨rfl, rfl⟩

/-- C8.  `Handshake::epoch()` is `prior_epoch + 1` in 32-bit unsigned
arithmetic: the successor for values below 2^32 − 1, wrapping to 0 at
2^32 − 1. -/
theorem C8_epoch_increment :
    ∀ h : wire.Handshake, h.prior_epoch < 2 ^ 32 →
      h.epoch = (h.prior_epoch + 1) % 2 ^ 32 ∧
      (h.prior_epoch < 2 ^ 32 - 1 → h.epoch = h.prior_epoch + 1) ∧
      (h.prior_epoch = 2 ^ 32 - 1 → h.epoch = 0) := by
  intro h _
  refine ⟨rfl, ?_, ?_⟩
  · intro hlt
    unfold wire.Handshake.epoch
    exact Nat.mod_eq_of_lt (by omega)
  · intro heq
    unfold wire.Handshake.epoch
    rw [heq]
    have h1 : 2 ^ 32 - 1 + 1 = 2 ^ 32 := by omega
    rw [h1, Nat.mod_self]

/-- Witness for C8: a handshake at the maximal prior epoch wraps to 0, and
one at a small prior epoch advances by one. -/
theorem C8_epoch_increment_witness :
    wire.handshakeMax.prior_epoch < 2 ^ 32 ∧
    wire.handshakeMax.epoch = 0 ∧
    wire.handshake0.prior_epoch < 2 ^ 32 - 1 ∧
    wire.handshake0.epoch = 1 + 1 :=
  ⟨by decide, (C8_epoch_increment wire.handshakeMax (by decide)).2.2 rfl,
   by decide, (C8_epoch_increment wire.handshake0 (by decide)).2.1 (by decide)⟩

/-- C9.  `AESGCM::decrypt` raises InvalidParameter for every ciphertext
shorter than the 16-byte tag, and every accepted ciphertext yields a
plaintext of exactly `ct.size() - 16` bytes. -/
theorem C9_aesgcm_decrypt :
    (∀ (gcm : AESGCM) (ct : Bytes), ct.length < 16 →
      gcm.decrypt ct
        = .error (.invalidParameterError "AES-GCM ciphertext smaller than tag size")) ∧
    (∀ (gcm : AESGCM) (ct pt : Bytes), gcm.decrypt ct = .ok pt →
      pt.length = ct.length - 16) := by
  constructor
  · intro gcm ct h
    unfold AESGCM.decrypt
    rw [if_pos (by simpa [AESGCM.tag_size] using h)]
  · intro gcm ct pt h
    unfold AESGCM.decrypt at h
    split at h
    · simp at h
    · dsimp only at h
      split at h
      · simp only [Except.ok.injEq] at h
        subst h
        rw [ctrStream_length, List.length_take,
          Nat.min_eq_left (Nat.sub_le _ _)]
        rfl
      · simp at h

/-- Witness for C9: a 1-byte ciphertext is rejected; an encryption of a
3-byte plaintext decrypts to exactly `ct.size() - 16` bytes. -/
theorem C9_aesgcm_decrypt_witness :
    (([5] : Bytes).length < 16 ∧
      gcm0.decrypt [5]
        = .error (.invalidParameterError "AES-GCM ciphertext smaller than tag size")) ∧
    gcm0.decrypt (gcm0.encrypt [1, 2, 3]) = .ok [1, 2, 3] ∧
    ([1, 2, 3] : Bytes).length = (gcm0.encrypt [1, 2, 3]).length - 16 :=
  ⟨⟨by decide, C9_aesgcm_decrypt.1 gcm0 [5] (by decide)⟩,
   AESGCM.decrypt_encrypt gcm0 [1, 2, 3],
   C9_aesgcm_decrypt.2 gcm0 _ _ (AESGCM.decrypt_encrypt gcm0 [1, 2, 3])⟩

/-- C10.  `OpenSSLKey::operator==` handles absent key material totally:
two null keys compare equal; a null key and a non-null key compare unequal
(in either order), with no failure. -/
theorem C10_null_key_equality :
    (∀ x y : OpenSSLKey, x.material = none → y.material = none →
      OpenSSLKey.eq x y = true) ∧
    (∀ x y : OpenSSLKey, x.material = none → y.material ≠ none →
      OpenSSLKey.eq x y = false ∧ OpenSSLKey.eq y x = false) := by
  constructor
  · intro x y hx hy
    obtain ⟨xm⟩ := x
    obtain ⟨ym⟩ := y
    simp only at hx hy
    subst hx
    subst hy
    rfl
  · intro x y hx hy
    obtain ⟨xm⟩ := x
    obtain ⟨ym⟩ := y
    simp only at hx hy
    subst hx
    cases ym with
    | none => exact absurd rfl hy
    | some m => exact ⟨rfl, rfl⟩

/-- Witness for C10 at concrete keys. -/
theorem C10_null_key_equality_witness :
    ((⟨none⟩ : OpenSSLKey).material = none ∧
      OpenSSLKey.eq ⟨none⟩ ⟨none⟩ = true) ∧
    ((⟨some ⟨.P256, none, 5⟩⟩ : OpenSSLKey).material ≠ none ∧
      OpenSSLKey.eq ⟨none⟩ ⟨some ⟨.P256, none, 5⟩⟩ = false ∧
      OpenSSLKey.eq ⟨some ⟨.P256, none, 5⟩⟩ ⟨none⟩ = false) :=
  ⟨⟨rfl, C10_null_key_equality.1 ⟨none⟩ ⟨none⟩ rfl rfl⟩,
   ⟨by decide, C10_null_key_equality.2 ⟨none⟩ ⟨some ⟨.P256, none, 5⟩⟩ rfl (by decide)⟩⟩

end mls
